import Mathlib

/-!
Verification development for the NFT enumeration/enrichment module
(`src/common/NFTget.ts`).  The TypeScript source is shallowly embedded:
ledger RPC calls, binary decoders and the HTTP fetch are collaborators
supplied through an explicit environment record; fallible calls return
`Except Unit`; JavaScript `undefined` becomes `Option.none`.  Functions
that perform account fetches additionally return the list of addresses
fetched, in order, so that claims about which fetches are attempted can
be stated.  Helpers imported from `helpers/util` and
`helpers/spl-token` are not part of the given source tree; those are
modelled from the specification and marked as such.
-/

/-- Opaque ledger address (spec: TokenIdentifier / PDA). -/
abbrev Addr := Nat

/-- A mint address identifying one token. -/
abbrev Mint := Nat

/-- Raw account contents returned by the ledger (`AccountInfo<Buffer>`);
only the byte array is relevant to the module. -/
structure AccountInfo where
  data : List Nat
  deriving DecidableEq

/-- Metaplex `MetadataKey` enum; the numeric values are the on-chain
discriminator bytes used by the `switch` in `getEditionInfoByMint`. -/
inductive MetadataKey
  | Uninitialized
  | EditionV1
  | MasterEditionV1
  | ReservationListV1
  | MetadataV1
  | ReservationListV2
  | MasterEditionV2
  | EditionMarker
  deriving DecidableEq

def MetadataKey.val : MetadataKey → Nat
  | .Uninitialized => 0
  | .EditionV1 => 1
  | .MasterEditionV1 => 2
  | .ReservationListV1 => 3
  | .MetadataV1 => 4
  | .ReservationListV2 => 5
  | .MasterEditionV2 => 6
  | .EditionMarker => 7

def MetadataKey.all : List MetadataKey :=
  [.Uninitialized, .EditionV1, .MasterEditionV1, .ReservationListV1,
   .MetadataV1, .ReservationListV2, .MasterEditionV2, .EditionMarker]

/-- Modelled from the spec: `getEnumKeyByEnumValue` from `helpers/util`
(absent from the given sources), specialised to `MetadataKey`.  It maps
a discriminator byte to the enum member carrying that value, and an
absent or unrecognised byte to an absent result. -/
def metadataKeyOfByte (b : Option Nat) : Option MetadataKey :=
  b.bind fun v => MetadataKey.all.find? fun k => k.val == v

/-- Decoded print-edition account data (`EditionData`); `parent` is the
address of the parent master edition. -/
structure EditionData where
  parent : Addr
  edition : Nat
  deriving DecidableEq

/-- Decoded master-edition account data. -/
structure MasterEditionData where
  maxSupply : Option Nat
  supply : Nat
  deriving DecidableEq

/-- Decoded SPL token-account layout (spec: tokenAccountData). -/
structure TokenAccountData where
  owner : Addr
  amount : Nat
  deriving DecidableEq

/-- Decoded SPL mint layout (spec: tokenMintData). -/
structure TokenMintData where
  supply : Nat
  decimals : Nat
  deriving DecidableEq

/-- One entry of the balance-ranked list returned by
`getTokenLargestAccounts`. -/
structure TokenAccountBalance where
  address : Addr
  amount : Nat
  deriving DecidableEq

/-- Off-chain JSON metadata document, kept opaque. -/
abbrev ExternalMetadata := String

/-- HTTP response as seen through axios: only the `data` field is used. -/
structure AxiosResponse where
  data : ExternalMetadata
  deriving DecidableEq

/-- Innermost on-chain metadata payload (`metadataOnchain.data`). -/
structure MetadataDataData where
  name : String
  symbol : String
  uri : String
  deriving DecidableEq

/-- On-chain metadata record body (`Metadata.data` in metaplex). -/
structure MetadataData where
  updateAuthority : Addr
  mint : Mint
  data : MetadataDataData
  deriving DecidableEq

/-- A located metadata account: derived address plus decoded body. -/
structure Metadata where
  pubkey : Addr
  data : MetadataData
  deriving DecidableEq

/-- The edition-lineage result of `getEditionInfoByMint`.  Every field is
optional because the source initialises the five locals to `undefined`
and fills them per classification branch. -/
structure EditionInfo where
  editionType : Option MetadataKey
  editionPDA : Option Addr
  editionData : Option EditionData
  masterEditionPDA : Option Addr
  masterEditionData : Option MasterEditionData
  deriving DecidableEq

/-- The empty-object substitute produced by the failure-tolerant adapter
in object mode: an `EditionInfo` whose five fields are all absent. -/
def emptyEditionInfo : EditionInfo :=
  { editionType := none, editionPDA := none, editionData := none,
    masterEditionPDA := none, masterEditionData := none }

/-- The enriched record (`INFT` from `helpers/types`): the base fields
produced by `deserializeMetadataOnchain` plus the optional enrichment
fields attached by `turnMetadatasIntoNFTs`. -/
structure INFT where
  mint : Mint
  metadataPDA : Addr
  metadataOnchain : MetadataData
  address : Option Addr := none
  splTokenInfo : Option TokenAccountData := none
  splMintInfo : Option TokenMintData := none
  metadataExternal : Option ExternalMetadata := none
  editionType : Option MetadataKey := none
  editionPDA : Option Addr := none
  editionData : Option EditionData := none
  masterEditionPDA : Option Addr := none
  masterEditionData : Option MasterEditionData := none
  deriving DecidableEq

/-- Selector parameters of the public entry point (`INFTParams`). -/
structure INFTParams where
  owner : Option Addr := none
  creators : Option (List Addr) := none
  mint : Option Mint := none
  updateAuthority : Option Addr := none
  deriving DecidableEq

/-- External collaborators of the module: ledger queries, decoders and
the HTTP fetch, each independently fallible (`Except Unit`).  A fetch
that resolves to a missing account is `.ok none` (the source guards
`info?.data[0]`); a thrown error is `.error ()`. -/
structure Env where
  getAccountInfo : Addr → Except Unit (Option AccountInfo)
  editionPDA : Mint → Addr
  decodeEdition : Addr → AccountInfo → Except Unit EditionData
  decodeMasterEdition : Addr → AccountInfo → Except Unit MasterEditionData
  getTokenLargestAccounts : Mint → Except Unit (Option (List TokenAccountBalance))
  httpGet : String → Except Unit (Option AxiosResponse)
  deserializeTokenAccount : Mint → Option Addr → Except Unit TokenAccountData
  deserializeTokenMint : Mint → Except Unit TokenMintData
  findByOwnerV2 : Addr → Except Unit (List Metadata)
  findManyCreators : List Addr → Except Unit (List Metadata)
  findManyMint : Mint → Except Unit (List Metadata)
  findManyUpdateAuthority : Addr → Except Unit (List Metadata)

/-- Modelled from the spec: `okToFailAsync` from `helpers/util` (absent
from the given sources) with its default third argument — the
failure-tolerant adapter converts any raised error into an absent
value. -/
def okToFailAsync {α : Type} (r : Except Unit α) : Option α :=
  r.toOption

/-- Modelled from the spec: `okToFailAsync` with `wantObject = true`, as
used for `getEditionInfoByMint` — a raised error is converted into an
empty structure so that spreading its fields yields all-absent
fields. -/
def okToFailAsyncObj (r : Except Unit EditionInfo) : EditionInfo :=
  (okToFailAsync r).getD emptyEditionInfo

-- --------------------------------------- getters

/-- `getHolderByMint`: rank accounts holding the mint by balance and take
the first address; absent when the list is null or empty. -/
def getHolderByMint (env : Env) (mint : Mint) : Except Unit (Option Addr) :=
  match env.getTokenLargestAccounts mint with
  | .error e => .error e
  | .ok tokens =>
    match tokens with
    | some value =>
      if 0 < value.length then
        .ok (value.head?.map TokenAccountBalance.address)
      else
        .ok none
    | none => .ok none

/-- `getExternalMetadata`: single HTTP GET of the URI, returning the
parsed body. -/
def getExternalMetadata (env : Env) (uri : String) :
    Except Unit (Option ExternalMetadata) :=
  match env.httpGet uri with
  | .error e => .error e
  | .ok response =>
    match response with
    | some r => .ok (some r.data)
    | none => .ok none

/-- `getParentEdition`: fetch and decode the master edition referenced by
`editionData.parent`.  The second component is the list of addresses
fetched.  A missing account makes the `MasterEdition` constructor raise,
hence `.ok none` is an error here. -/
def getParentEditionT (env : Env) (editionData : EditionData) :
    Except Unit (Addr × MasterEditionData) × List Addr :=
  let masterEditionPDA := editionData.parent
  match env.getAccountInfo masterEditionPDA with
  | .error e => (.error e, [masterEditionPDA])
  | .ok none => (.error (), [masterEditionPDA])
  | .ok (some masterInfo) =>
    match env.decodeMasterEdition masterEditionPDA masterInfo with
    | .error e => (.error e, [masterEditionPDA])
    | .ok masterEditionData => (.ok (masterEditionPDA, masterEditionData), [masterEditionPDA])

/-- `getEditionInfoByMint`: fetch the edition PDA for the mint, classify
by the leading discriminator byte and fill the five result fields per
branch.  The second component is the list of addresses fetched.  In the
`EditionV1` branch the source destructures the adapter's result; when
the parent lookup failed the adapter yields an absent value, and
destructuring an absent value raises a TypeError in JavaScript, so that
case is an error of the whole resolution. -/
def getEditionInfoByMintT (env : Env) (mint : Mint) :
    Except Unit EditionInfo × List Addr :=
  let pda := env.editionPDA mint
  match env.getAccountInfo pda with
  | .error e => (.error e, [pda])
  | .ok none =>
    (.ok { editionType := metadataKeyOfByte none, editionPDA := none,
           editionData := none, masterEditionPDA := none,
           masterEditionData := none }, [pda])
  | .ok (some info) =>
    let key := info.data.head?
    let editionType := metadataKeyOfByte key
    if key = some MetadataKey.EditionV1.val then
      match env.decodeEdition pda info with
      | .error e => (.error e, [pda])
      | .ok editionData =>
        let (parentRes, parentTrace) := getParentEditionT env editionData
        match okToFailAsync parentRes with
        | none => (.error (), pda :: parentTrace)
        | some (masterEditionPDA, masterEditionData) =>
          (.ok { editionType := editionType, editionPDA := some pda,
                 editionData := some editionData,
                 masterEditionPDA := some masterEditionPDA,
                 masterEditionData := some masterEditionData }, pda :: parentTrace)
    else if key = some MetadataKey.MasterEditionV1.val ∨
            key = some MetadataKey.MasterEditionV2.val then
      match env.decodeMasterEdition pda info with
      | .error e => (.error e, [pda])
      | .ok masterEditionData =>
        (.ok { editionType := editionType, editionPDA := none,
               editionData := none, masterEditionPDA := some pda,
               masterEditionData := some masterEditionData }, [pda])
    else
      (.ok { editionType := editionType, editionPDA := none,
             editionData := none, masterEditionPDA := none,
             masterEditionData := none }, [pda])

/-- The spec's edition classification states. -/
inductive SpecEditionType
  | MasterV1
  | MasterV2
  | PrintV1
  | Unknown
  deriving DecidableEq

/-- Abstraction map from the code's `editionType` field (an optional
`MetadataKey` member) to the spec's four classification states: any tag
other than the two master tags and the print tag, and an absent tag,
read as `Unknown`. -/
def specEditionType : Option MetadataKey → SpecEditionType
  | some MetadataKey.MasterEditionV1 => SpecEditionType.MasterV1
  | some MetadataKey.MasterEditionV2 => SpecEditionType.MasterV2
  | some MetadataKey.EditionV1 => SpecEditionType.PrintV1
  | _ => SpecEditionType.Unknown

-- --------------------------------------- deserializers

/-- `deserializeMetadataOnchain`: project each located metadata account
onto a base `INFT` record (enrichment fields absent). -/
def deserializeMetadataOnchain (metadatas : List Metadata) : List INFT :=
  metadatas.map fun m =>
    { mint := m.data.mint, metadataPDA := m.pubkey, metadataOnchain := m.data }

-- --------------------------------------- together

/-- Per-record enrichment result built inside the `Promise.all` map: the
mint key plus the four optional lookups and the (possibly empty)
edition-info object whose fields are spread into the record. -/
structure EnrichedNFT where
  mint : Mint
  address : Option Addr
  splTokenInfo : Option TokenAccountData
  splMintInfo : Option TokenMintData
  metadataExternal : Option ExternalMetadata
  edition : EditionInfo
  deriving DecidableEq

/-- One iteration of the enrichment map in `turnMetadatasIntoNFTs`: the
holder address feeds the token-account decode, and each lookup is run
through the failure-tolerant adapter. -/
def enrichOne (env : Env) (n : INFT) : EnrichedNFT :=
  let address := (okToFailAsync (getHolderByMint env n.metadataOnchain.mint)).join
  { mint := n.mint
    address := address
    splTokenInfo := okToFailAsync (env.deserializeTokenAccount n.mint address)
    splMintInfo := okToFailAsync (env.deserializeTokenMint n.mint)
    metadataExternal :=
      (okToFailAsync (getExternalMetadata env n.metadataOnchain.data.uri)).join
    edition := okToFailAsyncObj (getEditionInfoByMintT env n.mint).1 }

/-- Spreading a found enrichment record over a base record: every
enrichment key overwrites the corresponding base field. -/
def mergeINFT (b : INFT) (e : EnrichedNFT) : INFT :=
  { b with
    mint := e.mint
    address := e.address
    splTokenInfo := e.splTokenInfo
    splMintInfo := e.splMintInfo
    metadataExternal := e.metadataExternal
    editionType := e.edition.editionType
    editionPDA := e.edition.editionPDA
    editionData := e.edition.editionData
    masterEditionPDA := e.edition.masterEditionPDA
    masterEditionData := e.edition.masterEditionData }

/-- Modelled from the spec: `joinArraysOnKey` from `helpers/util` (absent
from the given sources) at key `mint` — an ordered projection over the
base sequence, spreading over each base record the first enrichment
record with an equal key, and keeping a base record unchanged when no
enrichment record matches. -/
def joinArraysOnKey (base : List INFT) (enriched : List EnrichedNFT) : List INFT :=
  base.map fun b =>
    match enriched.find? (fun e => e.mint == b.mint) with
    | some e => mergeINFT b e
    | none => b

/-- Progress-sink payload (`UpdateLoadingParams`); the found count stands
for the interpolated message text. -/
structure UpdateLoadingParams where
  newProgress : Nat
  maxProgress : Nat
  foundCount : Nat
  deriving DecidableEq

/-- The selector-specific locator query issued by the entry point. -/
inductive SelectorQuery
  | byOwner (owner : Addr)
  | byCreators (creators : List Addr)
  | byMint (mint : Mint)
  | byUpdateAuthority (updateAuthority : Addr)
  deriving DecidableEq

/-- Observable effects of one entry-point call, in order: locator
queries, progress emissions, and per-record enrichment work. -/
inductive Event
  | locate (q : SelectorQuery)
  | emitLoading (p : UpdateLoadingParams)
  | enrichRecord (mint : Mint)
  deriving DecidableEq

/-- `turnMetadatasIntoNFTs`: deserialize the base set, enrich every
record, and join the enrichment results back onto the base set by mint.
The second component records one enrichment event per base record. -/
def turnMetadatasIntoNFTsT (env : Env) (metadatas : List Metadata) :
    List INFT × List Event :=
  let NFTs := deserializeMetadataOnchain metadatas
  let enrichedNFTs := NFTs.map (enrichOne env)
  (joinArraysOnKey NFTs enrichedNFTs, NFTs.map fun n => Event.enrichRecord n.mint)

/-- Failures surfaced by the entry point: the missing-selector contract
violation, or a propagated locator failure. -/
inductive GetNFTsError
  | invalidSelector
  | collaborator
  deriving DecidableEq

/-- The selector dispatch of `getNFTs` (lines 174-188): first truthy of
owner, non-empty creators, mint, updateAuthority; otherwise the
`InvalidSelector` failure.  The JavaScript guard
`creators && creators.length > 0` is the non-emptiness test on
`creators.getD []`. -/
def selectorOf (p : INFTParams) : Except GetNFTsError SelectorQuery :=
  match p.owner with
  | some owner => .ok (.byOwner owner)
  | none =>
    if 0 < (p.creators.getD []).length then
      .ok (.byCreators (p.creators.getD []))
    else
      match p.mint with
      | some mint => .ok (.byMint mint)
      | none =>
        match p.updateAuthority with
        | some updateAuthority => .ok (.byUpdateAuthority updateAuthority)
        | none => .error .invalidSelector

/-- Dispatch of the chosen selector to the matching locator query. -/
def locateRun (env : Env) : SelectorQuery → Except Unit (List Metadata)
  | .byOwner owner => env.findByOwnerV2 owner
  | .byCreators creators => env.findManyCreators creators
  | .byMint mint => env.findManyMint mint
  | .byUpdateAuthority updateAuthority => env.findManyUpdateAuthority updateAuthority

/-- `getNFTs`: select, locate, short-circuit on an empty base set, emit
the single progress notification, then enrich.  The second component is
the ordered effect trace. -/
def getNFTsT (env : Env) (p : INFTParams) :
    Except GetNFTsError (List INFT) × List Event :=
  match selectorOf p with
  | .error e => (.error e, [])
  | .ok q =>
    match locateRun env q with
    | .error _ => (.error .collaborator, [.locate q])
    | .ok metadatas =>
      if metadatas.length = 0 then
        (.ok [], [.locate q])
      else
        (.ok (turnMetadatasIntoNFTsT env metadatas).1,
         .locate q :: .emitLoading ⟨50, 90, metadatas.length⟩ ::
           (turnMetadatasIntoNFTsT env metadatas).2)

/-- Locator queries appearing in an effect trace, in order. -/
def locateEvents (tr : List Event) : List SelectorQuery :=
  tr.filterMap fun e =>
    match e with
    | .locate q => some q
    | _ => none

/-- Number of progress emissions in an effect trace. -/
def emitCount (tr : List Event) : Nat :=
  (tr.filter fun e =>
    match e with
    | .emitLoading _ => true
    | _ => false).length

/-- Mints whose enrichment work appears in an effect trace, in order. -/
def enrichEvents (tr : List Event) : List Mint :=
  tr.filterMap fun e =>
    match e with
    | .enrichRecord m => some m
    | _ => none

-- --------------------------------------- helper lemmas

theorem trace_map_enrich_locate (l : List INFT) :
    locateEvents (l.map fun n => Event.enrichRecord n.mint) = [] := by
  induction l with
  | nil => rfl
  | cons a t ih => simp only [List.map_cons, locateEvents, List.filterMap_cons] at ih ⊢; exact ih

theorem trace_map_enrich_emit (l : List INFT) :
    emitCount (l.map fun n => Event.enrichRecord n.mint) = 0 := by
  induction l with
  | nil => rfl
  | cons a t ih => simp only [List.map_cons, emitCount, List.filter_cons] at ih ⊢; exact ih

theorem trace_map_enrich_enrich (l : List INFT) :
    enrichEvents (l.map fun n => Event.enrichRecord n.mint) = l.map INFT.mint := by
  induction l with
  | nil => rfl
  | cons a t ih => simpa [enrichEvents, List.filterMap_cons] using ih

theorem turn_trace_locateEvents (env : Env) (ms : List Metadata) :
    locateEvents (turnMetadatasIntoNFTsT env ms).2 = [] := by
  simp only [turnMetadatasIntoNFTsT]
  exact trace_map_enrich_locate _

theorem turn_trace_emitCount (env : Env) (ms : List Metadata) :
    emitCount (turnMetadatasIntoNFTsT env ms).2 = 0 := by
  simp only [turnMetadatasIntoNFTsT]
  exact trace_map_enrich_emit _

theorem turn_trace_enrichEvents (env : Env) (ms : List Metadata) :
    enrichEvents (turnMetadatasIntoNFTsT env ms).2 = ms.map fun m => m.data.mint := by
  simp only [turnMetadatasIntoNFTsT]
  rw [trace_map_enrich_enrich, deserializeMetadataOnchain, List.map_map]
  rfl

theorem getNFTsT_locateEvents (env : Env) (p : INFTParams) (q : SelectorQuery)
    (h : selectorOf p = .ok q) :
    locateEvents (getNFTsT env p).2 = [q] := by
  unfold getNFTsT
  rw [h]
  cases hl : locateRun env q with
  | error e => simp [hl, locateEvents]
  | ok ms =>
    by_cases hm : ms.length = 0
    · simp [hl, hm, locateEvents]
    · simp only [hl, hm, locateEvents, List.filterMap_cons, if_false]
      have ht := turn_trace_locateEvents env ms
      simp only [locateEvents] at ht
      simp [ht]

-- --------------------------------------- concrete environments for witnesses

/-- Environment in which every per-record lookup raises and every locator
returns an empty set. -/
def envAllFail : Env where
  getAccountInfo := fun _ => .error ()
  editionPDA := fun m => m + 1000
  decodeEdition := fun _ _ => .error ()
  decodeMasterEdition := fun _ _ => .error ()
  getTokenLargestAccounts := fun _ => .error ()
  httpGet := fun _ => .error ()
  deserializeTokenAccount := fun _ _ => .error ()
  deserializeTokenMint := fun _ => .error ()
  findByOwnerV2 := fun _ => .ok []
  findManyCreators := fun _ => .ok []
  findManyMint := fun _ => .ok []
  findManyUpdateAuthority := fun _ => .ok []

/-- A sample located metadata record for mint 5. -/
def md5 : Metadata :=
  { pubkey := 9, data := { updateAuthority := 8, mint := 5, data := { name := "n", symbol := "s", uri := "u" } } }

/-- Environment whose mint locator finds exactly one record for mint 5. -/
def envOne : Env :=
  { envAllFail with findManyMint := fun m => if m = 5 then .ok [md5] else .ok [] }

/-- Ledger with two ranked holder accounts for mint 42 (the first with
amount 0, showing the amount is not validated) and an empty ranked list
for mint 43. -/
def envHolders : Env :=
  { envAllFail with
    getTokenLargestAccounts := fun m =>
      if m = 42 then .ok (some [⟨11, 0⟩, ⟨12, 5⟩])
      else if m = 43 then .ok (some []) else .error () }

-- --------------------------------------- claims

/-- C2: when several selectors are set, exactly one is honored, in the
priority order owner, creators (non-empty), mint, updateAuthority; the
locator query issued by `getNFTs` corresponds to that single selector
only (the trace carries exactly one `locate` event, for that
selector). -/
theorem claim2_selector_priority (env : Env) (p : INFTParams) :
    (∀ o, p.owner = some o →
        locateEvents (getNFTsT env p).2 = [SelectorQuery.byOwner o]) ∧
    (p.owner = none → ∀ cs, p.creators = some cs → 0 < cs.length →
        locateEvents (getNFTsT env p).2 = [SelectorQuery.byCreators cs]) ∧
    (p.owner = none → (p.creators.getD []).length = 0 → ∀ m, p.mint = some m →
        locateEvents (getNFTsT env p).2 = [SelectorQuery.byMint m]) ∧
    (p.owner = none → (p.creators.getD []).length = 0 → p.mint = none →
        ∀ u, p.updateAuthority = some u →
        locateEvents (getNFTsT env p).2 = [SelectorQuery.byUpdateAuthority u]) := by
  refine ⟨?_, ?_, ?_, ?_⟩
  · intro o ho
    exact getNFTsT_locateEvents env p _ (by simp [selectorOf, ho])
  · intro ho cs hcs hlen
    exact getNFTsT_locateEvents env p _ (by simp [selectorOf, ho, hcs, hlen])
  · intro ho hcs m hm
    exact getNFTsT_locateEvents env p _
      (by simp [selectorOf, ho, hm, Nat.not_lt_of_le (Nat.le_of_eq hcs.symm), hcs])
  · intro ho hcs hm u hu
    exact getNFTsT_locateEvents env p _
      (by simp [selectorOf, ho, hm, hu, Nat.not_lt_of_le (Nat.le_of_eq hcs.symm), hcs])

/-- Witness for C2: all four selectors set at once; only the owner query
is issued. -/
theorem claim2_selector_priority_witness :
    locateEvents (getNFTsT envAllFail ⟨some 1, some [2], some 3, some 4⟩).2 =
      [SelectorQuery.byOwner 1] :=
  (claim2_selector_priority envAllFail ⟨some 1, some [2], some 3, some 4⟩).1 1 rfl

/-- C3: with no selector set, `getNFTs` raises `InvalidSelector` and its
effect trace is empty — no locator query, no progress emission, no
enrichment. -/
theorem claim3_no_selector_raises (env : Env) (p : INFTParams)
    (h1 : p.owner = none) (h2 : p.creators = none) (h3 : p.mint = none)
    (h4 : p.updateAuthority = none) :
    getNFTsT env p = (.error .invalidSelector, []) := by
  simp [getNFTsT, selectorOf, h1, h2, h3, h4]

/-- Witness for C3 at the empty parameter record. -/
theorem claim3_no_selector_raises_witness :
    getNFTsT envAllFail ⟨none, none, none, none⟩ = (.error .invalidSelector, []) :=
  claim3_no_selector_raises envAllFail ⟨none, none, none, none⟩ rfl rfl rfl rfl

/-- C8: the holder lookup returns the address of the first entry of the
balance-ranked list — whatever its amount and whatever else the list
contains — and an absent value (not an error) when the list is empty or
null. -/
theorem claim8_holder_takes_first (env : Env) (mint : Mint)
    (r : Option (List TokenAccountBalance))
    (h : env.getTokenLargestAccounts mint = .ok r) :
    getHolderByMint env mint = .ok ((r.getD []).head?.map TokenAccountBalance.address) := by
  cases r with
  | none => simp [getHolderByMint, h]
  | some l =>
    cases l with
    | nil => simp [getHolderByMint, h]
    | cons a t => simp [getHolderByMint, h]

/-- Witness for C8: two ranked holders whose top entry has amount 0 —
its address is still returned, with no uniqueness or amount check — and
an empty ranked list yields an absent holder. -/
theorem claim8_holder_takes_first_witness :
    getHolderByMint envHolders 42 = .ok (some 11) ∧
    getHolderByMint envHolders 43 = .ok none :=
  ⟨claim8_holder_takes_first envHolders 42 (some [⟨11, 0⟩, ⟨12, 5⟩]) rfl,
   claim8_holder_takes_first envHolders 43 (some []) rfl⟩

/-- C10: an empty creators array with no other selector raises
`InvalidSelector` (it is treated as no selector), and a non-empty
lower-priority selector (mint, then updateAuthority) supplied alongside
an empty creators array is honored instead. -/
theorem claim10_empty_creators (env : Env) (p : INFTParams)
    (h1 : p.owner = none) (h2 : p.creators = some []) :
    (p.mint = none → p.updateAuthority = none →
        getNFTsT env p = (.error .invalidSelector, [])) ∧
    (∀ m, p.mint = some m →
        locateEvents (getNFTsT env p).2 = [SelectorQuery.byMint m]) ∧
    (p.mint = none → ∀ u, p.updateAuthority = some u →
        locateEvents (getNFTsT env p).2 = [SelectorQuery.byUpdateAuthority u]) := by
  refine ⟨?_, ?_, ?_⟩
  · intro h3 h4
    simp [getNFTsT, selectorOf, h1, h2, h3, h4]
  · intro m hm
    exact getNFTsT_locateEvents env p _ (by simp [selectorOf, h1, h2, hm])
  · intro h3 u hu
    exact getNFTsT_locateEvents env p _ (by simp [selectorOf, h1, h2, h3, hu])

/-- Witness for C10: creators set to the empty array raises
`InvalidSelector`, while an accompanying mint selector is honored. -/
theorem claim10_empty_creators_witness :
    getNFTsT envAllFail ⟨none, some [], none, none⟩ = (.error .invalidSelector, []) ∧
    locateEvents (getNFTsT envAllFail ⟨none, some [], some 3, none⟩).2 =
      [SelectorQuery.byMint 3] :=
  ⟨(claim10_empty_creators envAllFail ⟨none, some [], none, none⟩ rfl rfl).1 rfl rfl,
   (claim10_empty_creators envAllFail ⟨none, some [], some 3, none⟩ rfl rfl).2.1 3 rfl⟩

/-- C4: when the locator returns zero records, `getNFTs` returns the
empty collection with only the locate event — no progress emission and
no enrichment work; when it returns a non-empty set, the trace is the
locate event, then exactly one progress emission carrying the base
record count, then the enrichment work for exactly the located
records. -/
theorem claim4_zero_shortcircuit_single_emit (env : Env) (p : INFTParams)
    (q : SelectorQuery) (ms : List Metadata)
    (hq : selectorOf p = .ok q) (hl : locateRun env q = .ok ms) :
    (ms.length = 0 → getNFTsT env p = (.ok [], [Event.locate q])) ∧
    (0 < ms.length →
      (getNFTsT env p).2 =
        Event.locate q :: Event.emitLoading ⟨50, 90, ms.length⟩ ::
          (turnMetadatasIntoNFTsT env ms).2 ∧
      emitCount (getNFTsT env p).2 = 1 ∧
      enrichEvents (getNFTsT env p).2 = ms.map fun m => m.data.mint) := by
  constructor
  · intro hz
    unfold getNFTsT
    simp only [hq, hl]
    rw [if_pos hz]
  · intro hpos
    have hz : ¬ ms.length = 0 := Nat.pos_iff_ne_zero.mp hpos
    have htrace : (getNFTsT env p).2 =
        Event.locate q :: Event.emitLoading ⟨50, 90, ms.length⟩ ::
          (turnMetadatasIntoNFTsT env ms).2 := by
      unfold getNFTsT
      simp only [hq, hl]
      rw [if_neg hz]
    refine ⟨htrace, ?_, ?_⟩
    · rw [htrace]
      have ht := turn_trace_emitCount env ms
      simp only [emitCount, List.filter_cons] at ht ⊢
      simp [ht]
    · rw [htrace]
      have ht := turn_trace_enrichEvents env ms
      simp only [enrichEvents, List.filterMap_cons] at ht ⊢
      simp [ht]

/-- Witness for C4: a mint selector locating zero records short-circuits
with no emission; one locating a single record emits exactly once. -/
theorem claim4_zero_shortcircuit_single_emit_witness :
    getNFTsT envAllFail ⟨none, none, some 5, none⟩ = (.ok [], [Event.locate (.byMint 5)]) ∧
    emitCount (getNFTsT envOne ⟨none, none, some 5, none⟩).2 = 1 :=
  ⟨(claim4_zero_shortcircuit_single_emit envAllFail ⟨none, none, some 5, none⟩
      (.byMint 5) [] rfl rfl).1 rfl,
   ((claim4_zero_shortcircuit_single_emit envOne ⟨none, none, some 5, none⟩
      (.byMint 5) [md5] rfl rfl).2 (by decide)).2.1⟩

-- --------------------------------------- edition-resolver environments

/-- Ledger for the edition-classification witnesses: mint 1's edition PDA
(1001) holds a MasterEditionV2 account, mint 2's (1002) holds an
EditionV1 account whose decoded parent (500) holds a decodable master,
and every other address is missing. -/
def envEdition : Env :=
  { envAllFail with
    getAccountInfo := fun a =>
      if a = 1001 then .ok (some ⟨[6]⟩)
      else if a = 1002 then .ok (some ⟨[1]⟩)
      else if a = 500 then .ok (some ⟨[6, 9]⟩)
      else .ok none
    decodeEdition := fun pda _ => if pda = 1002 then .ok ⟨500, 3⟩ else .error ()
    decodeMasterEdition := fun _ info =>
      if info.data.head? = some 6 then .ok ⟨none, 0⟩ else .error () }

/-- Ledger with a decodable EditionV1 print account for mint 2 (PDA 1002,
parent 500) whose parent master fetch fails. -/
def envPrintBroken : Env :=
  { envAllFail with
    getAccountInfo := fun a =>
      if a = 1002 then .ok (some ⟨[1]⟩) else .error ()
    decodeEdition := fun pda _ => if pda = 1002 then .ok ⟨500, 3⟩ else .error () }

theorem getParentEditionT_trace (env : Env) (ed : EditionData) :
    (getParentEditionT env ed).2 = [ed.parent] := by
  simp only [getParentEditionT]
  cases h : env.getAccountInfo ed.parent with
  | error e => rfl
  | ok o =>
    cases o with
    | none => rfl
    | some mi =>
      dsimp only
      cases hd : env.decodeMasterEdition ed.parent mi with
      | error e => rfl
      | ok v => rfl

/-- C5: edition classification — a MasterEditionV2 leading tag yields the
MasterV2 classification and only the primary fetch is attempted; an
EditionV1 tag yields the PrintV1 classification and exactly one further
(parent) fetch is attempted; an unreadable or missing primary account
yields the Unknown classification with all four address/data fields
absent. -/
theorem claim5_edition_classification (env : Env) (mint : Mint) :
    (∀ info md, env.getAccountInfo (env.editionPDA mint) = .ok (some info) →
      info.data.head? = some MetadataKey.MasterEditionV2.val →
      env.decodeMasterEdition (env.editionPDA mint) info = .ok md →
      getEditionInfoByMintT env mint =
        (.ok { editionType := some MetadataKey.MasterEditionV2, editionPDA := none,
               editionData := none, masterEditionPDA := some (env.editionPDA mint),
               masterEditionData := some md }, [env.editionPDA mint]) ∧
      specEditionType (some MetadataKey.MasterEditionV2) = SpecEditionType.MasterV2) ∧
    (∀ info ed, env.getAccountInfo (env.editionPDA mint) = .ok (some info) →
      info.data.head? = some MetadataKey.EditionV1.val →
      env.decodeEdition (env.editionPDA mint) info = .ok ed →
      (getEditionInfoByMintT env mint).2 = [env.editionPDA mint, ed.parent] ∧
      (∀ mpda mdata, (getParentEditionT env ed).1 = .ok (mpda, mdata) →
        (getEditionInfoByMintT env mint).1 =
          .ok { editionType := some MetadataKey.EditionV1,
                editionPDA := some (env.editionPDA mint), editionData := some ed,
                masterEditionPDA := some mpda, masterEditionData := some mdata }) ∧
      specEditionType (some MetadataKey.EditionV1) = SpecEditionType.PrintV1) ∧
    ((env.getAccountInfo (env.editionPDA mint) = .error () ∨
      env.getAccountInfo (env.editionPDA mint) = .ok none) →
      okToFailAsyncObj (getEditionInfoByMintT env mint).1 = emptyEditionInfo ∧
      specEditionType emptyEditionInfo.editionType = SpecEditionType.Unknown) := by
  refine ⟨?_, ?_, ?_⟩
  · intro info md hacc hkey hdec
    refine ⟨?_, rfl⟩
    simp [getEditionInfoByMintT, hacc, hkey, hdec, MetadataKey.val,
      metadataKeyOfByte, MetadataKey.all]
  · intro info ed hacc hkey hdec
    rcases hpe : getParentEditionT env ed with ⟨res1, res2⟩
    have hmain :
        getEditionInfoByMintT env mint =
          (match okToFailAsync res1 with
           | none => (.error (), env.editionPDA mint :: res2)
           | some (mpda, mdata) =>
             (.ok { editionType := metadataKeyOfByte (some MetadataKey.EditionV1.val),
                    editionPDA := some (env.editionPDA mint), editionData := some ed,
                    masterEditionPDA := some mpda, masterEditionData := some mdata },
              env.editionPDA mint :: res2)) := by
      simp only [getEditionInfoByMintT, hacc, hkey, hdec, hpe]
      simp
    have hres2 : res2 = [ed.parent] := by
      have h2 := getParentEditionT_trace env ed
      rw [hpe] at h2
      simpa using h2
    refine ⟨?_, ?_, rfl⟩
    · rw [hmain]
      cases h1 : okToFailAsync res1 with
      | none => simp [hres2]
      | some v => cases v with
        | mk mpda mdata => simp [hres2]
    · intro mpda mdata hok
      have hr1 : res1 = .ok (mpda, mdata) := by
        simpa using hok
      rw [hmain, hr1]
      rfl
  · intro hbad
    refine ⟨?_, rfl⟩
    cases hbad with
    | inl h => simp only [getEditionInfoByMintT, h]; rfl
    | inr h => simp only [getEditionInfoByMintT, h]; rfl

/-- Witness for C5: under `envEdition`, mint 1 classifies as MasterV2
with a single fetch, mint 2 as PrintV1 with one parent fetch, and mint 3
(missing account) as Unknown with all fields absent. -/
theorem claim5_edition_classification_witness :
    getEditionInfoByMintT envEdition 1 =
      (.ok { editionType := some MetadataKey.MasterEditionV2, editionPDA := none,
             editionData := none, masterEditionPDA := some 1001,
             masterEditionData := some ⟨none, 0⟩ }, [1001]) ∧
    (getEditionInfoByMintT envEdition 2).2 = [1002, 500] ∧
    (getEditionInfoByMintT envEdition 2).1 =
      .ok { editionType := some MetadataKey.EditionV1, editionPDA := some 1002,
            editionData := some ⟨500, 3⟩, masterEditionPDA := some 500,
            masterEditionData := some ⟨none, 0⟩ } ∧
    okToFailAsyncObj (getEditionInfoByMintT envEdition 3).1 = emptyEditionInfo := by
  have h1 := (claim5_edition_classification envEdition 1).1 ⟨[6]⟩ ⟨none, 0⟩ rfl rfl rfl
  have h2 := (claim5_edition_classification envEdition 2).2.1 ⟨[1]⟩ ⟨500, 3⟩ rfl rfl rfl
  have h3 := (claim5_edition_classification envEdition 3).2.2 (Or.inr rfl)
  exact ⟨h1.1, h2.1, h2.2.1 500 ⟨none, 0⟩ rfl, h3.1⟩

/-- C6 (code bug, evaluated at the failing input): a decodable PrintV1
edition account whose parent master fetch fails.  The adapter around
`getParentEdition` yields an absent value, the source destructures that
absent value — in JavaScript a TypeError — so the whole resolution
raises, and the record-level wrapper degrades the edition info to the
empty object: the PrintV1 classification and the print's own edition
data are lost, contrary to the claim that only the master fields are
omitted. -/
theorem claim6_parent_failure_escalates :
    (getParentEditionT envPrintBroken ⟨500, 3⟩).1 = .error () ∧
    getEditionInfoByMintT envPrintBroken 2 = (.error (), [1002, 500]) ∧
    okToFailAsyncObj (getEditionInfoByMintT envPrintBroken 2).1 = emptyEditionInfo :=
  ⟨rfl, rfl, rfl⟩

/-- C7 counterexample: a MasterEditionV2 primary account produces an
EditionInfo whose masterEditionAddress is present while the
classification is MasterV2, not PrintV1 — refuting "masterEditionAddress
is present only for the PrintV1 classification". -/
theorem claim7_counterexample :
    (getEditionInfoByMintT envEdition 1).1 =
      .ok { editionType := some MetadataKey.MasterEditionV2, editionPDA := none,
            editionData := none, masterEditionPDA := some 1001,
            masterEditionData := some ⟨none, 0⟩ } ∧
    specEditionType (some MetadataKey.MasterEditionV2) ≠ SpecEditionType.PrintV1 :=
  ⟨rfl, by decide⟩

/-- C7 (amended): in every EditionInfo the resolver returns without
raising, editionData and editionAddress are present only for the PrintV1
classification; masterEditionAddress is present only for the Print and
Master classifications (for Masters it is the primary address itself,
not a parent link); and masterEditionData is present exactly when
masterEditionAddress is — a master was successfully resolved. -/
theorem claim7_field_presence (env : Env) (mint : Mint) (r : EditionInfo)
    (tr : List Addr) (h : getEditionInfoByMintT env mint = (.ok r, tr)) :
    (r.editionData.isSome → specEditionType r.editionType = SpecEditionType.PrintV1) ∧
    (r.editionPDA.isSome → specEditionType r.editionType = SpecEditionType.PrintV1) ∧
    (r.masterEditionPDA.isSome →
      specEditionType r.editionType = SpecEditionType.PrintV1 ∨
      specEditionType r.editionType = SpecEditionType.MasterV1 ∨
      specEditionType r.editionType = SpecEditionType.MasterV2) ∧
    (r.masterEditionData.isSome ↔ r.masterEditionPDA.isSome) := by
  simp only [getEditionInfoByMintT] at h
  cases hacc : env.getAccountInfo (env.editionPDA mint) with
  | error e => rw [hacc] at h; simp at h
  | ok o =>
    rw [hacc] at h
    cases o with
    | none =>
      simp only [Prod.mk.injEq, Except.ok.injEq] at h
      obtain ⟨h1, -⟩ := h
      subst h1
      refine ⟨?_, ?_, ?_, ?_⟩ <;> simp
    | some info =>
      dsimp only at h
      by_cases hk1 : info.data.head? = some MetadataKey.EditionV1.val
      · rw [if_pos hk1] at h
        cases hdec : env.decodeEdition (env.editionPDA mint) info with
        | error e => rw [hdec] at h; simp at h
        | ok ed =>
          rw [hdec] at h
          dsimp only at h
          rcases hpe : getParentEditionT env ed with ⟨r1, r2⟩
          rw [hpe] at h
          dsimp only at h
          cases hok : okToFailAsync r1 with
          | none => rw [hok] at h; simp at h
          | some v =>
            rcases v with ⟨a, b⟩
            rw [hok] at h
            simp only [Prod.mk.injEq, Except.ok.injEq] at h
            obtain ⟨h1, -⟩ := h
            subst h1
            refine ⟨?_, ?_, ?_, ?_⟩ <;>
              simp [hk1, specEditionType, metadataKeyOfByte, MetadataKey.all,
                MetadataKey.val]
      · rw [if_neg hk1] at h
        by_cases hk2 : info.data.head? = some MetadataKey.MasterEditionV1.val ∨
            info.data.head? = some MetadataKey.MasterEditionV2.val
        · rw [if_pos hk2] at h
          cases hdm : env.decodeMasterEdition (env.editionPDA mint) info with
          | error e => rw [hdm] at h; simp at h
          | ok md =>
            rw [hdm] at h
            simp only [Prod.mk.injEq, Except.ok.injEq] at h
            obtain ⟨h1, -⟩ := h
            subst h1
            cases hk2 with
            | inl h2 =>
              refine ⟨?_, ?_, ?_, ?_⟩ <;>
                simp [h2, specEditionType, metadataKeyOfByte, MetadataKey.all,
                  MetadataKey.val]
            | inr h2 =>
              refine ⟨?_, ?_, ?_, ?_⟩ <;>
                simp [h2, specEditionType, metadataKeyOfByte, MetadataKey.all,
                  MetadataKey.val]
        · rw [if_neg hk2] at h
          simp only [Prod.mk.injEq, Except.ok.injEq] at h
          obtain ⟨h1, -⟩ := h
          subst h1
          refine ⟨?_, ?_, ?_, ?_⟩ <;> simp

/-- Witness for the amended C7: a MasterEditionV2 result has its
masterEditionAddress present and satisfies the presence rules with the
MasterV2 classification. -/
theorem claim7_field_presence_witness :
    specEditionType (some MetadataKey.MasterEditionV2) = SpecEditionType.PrintV1 ∨
    specEditionType (some MetadataKey.MasterEditionV2) = SpecEditionType.MasterV1 ∨
    specEditionType (some MetadataKey.MasterEditionV2) = SpecEditionType.MasterV2 := by
  have h := claim7_field_presence envEdition 1
    { editionType := some MetadataKey.MasterEditionV2, editionPDA := none,
      editionData := none, masterEditionPDA := some 1001,
      masterEditionData := some ⟨none, 0⟩ } [1001] rfl
  exact h.2.2.1 rfl

-- --------------------------------------- merge lemmas

theorem joinArraysOnKey_mints (base : List INFT) (enriched : List EnrichedNFT) :
    (joinArraysOnKey base enriched).map INFT.mint = base.map INFT.mint := by
  induction base with
  | nil => rfl
  | cons b t ih =>
    simp only [joinArraysOnKey, List.map_cons] at ih ⊢
    refine congrArg₂ List.cons ?_ ih
    cases hf : enriched.find? (fun e => e.mint == b.mint) with
    | none => rfl
    | some e =>
      have hm : e.mint = b.mint := by simpa using List.find?_some hf
      simp [mergeINFT, hm]

theorem deserialize_mints (ms : List Metadata) :
    (deserializeMetadataOnchain ms).map INFT.mint = ms.map fun m => m.data.mint := by
  simp only [deserializeMetadataOnchain, List.map_map]
  rfl

theorem find?_map_enrich (f : INFT → EnrichedNFT) (hf : ∀ a, (f a).mint = a.mint) :
    ∀ (l : List INFT) (i : Nat) (n : INFT), (l.map INFT.mint).Nodup →
      l[i]? = some n →
      (l.map f).find? (fun e => e.mint == n.mint) = some (f n) := by
  intro l
  induction l with
  | nil => intro i n _ hget; simp at hget
  | cons b t ih =>
    intro i n hnd hget
    simp only [List.map_cons, List.nodup_cons] at hnd
    cases i with
    | zero =>
      simp only [List.getElem?_cons_zero, Option.some.injEq] at hget
      subst hget
      have hp : ((f b).mint == b.mint) = true := by simp [hf b]
      simp only [List.map_cons]
      rw [@List.find?_cons_of_pos EnrichedNFT (fun e => e.mint == b.mint) (f b)
        (List.map f t) hp]
    | succ j =>
      simp only [List.getElem?_cons_succ] at hget
      have hmem : n ∈ t := List.getElem?_mem hget
      have hne : ¬ ((f b).mint == n.mint) = true := by
        rw [hf b]
        simp only [beq_iff_eq]
        intro hEq
        exact hnd.1 (hEq ▸ List.mem_map_of_mem INFT.mint hmem)
      simp only [List.map_cons]
      rw [@List.find?_cons_of_neg EnrichedNFT (fun e => e.mint == n.mint) (f b)
        (List.map f t) hne]
      exact ih j n hnd.2 hget

/-- C1: the enriched collection returned by `turnMetadatasIntoNFTs` has
the same length and the same order of mints as the base set — the merge
never drops, reorders or duplicates base records — and under distinct
base mints, a record all of whose enrichment sub-lookups fail still
appears at its position, unchanged, with every enrichment field
absent. -/
theorem claim1_merge_preserves_base (env : Env) (ms : List Metadata) :
    (turnMetadatasIntoNFTsT env ms).1.map INFT.mint = ms.map (fun m => m.data.mint) ∧
    (∀ (i : Nat) (n : INFT), (ms.map fun m => m.data.mint).Nodup →
      (deserializeMetadataOnchain ms)[i]? = some n →
      (okToFailAsync (getHolderByMint env n.metadataOnchain.mint)).join = none →
      env.deserializeTokenAccount n.mint none = .error () →
      env.deserializeTokenMint n.mint = .error () →
      (okToFailAsync (getExternalMetadata env n.metadataOnchain.data.uri)).join = none →
      (getEditionInfoByMintT env n.mint).1 = .error () →
      (turnMetadatasIntoNFTsT env ms).1[i]? = some n ∧
      n.address = none ∧ n.splTokenInfo = none ∧ n.splMintInfo = none ∧
      n.metadataExternal = none ∧ n.editionType = none ∧ n.editionPDA = none ∧
      n.editionData = none ∧ n.masterEditionPDA = none ∧ n.masterEditionData = none) := by
  constructor
  · simp only [turnMetadatasIntoNFTsT]
    rw [joinArraysOnKey_mints, deserialize_mints]
  · intro i n hnd hget h1 h2 h3 h4 h5
    have hnd' : ((deserializeMetadataOnchain ms).map INFT.mint).Nodup := by
      rw [deserialize_mints]; exact hnd
    have hfind := find?_map_enrich (enrichOne env) (fun a => rfl)
      (deserializeMetadataOnchain ms) i n hnd' hget
    have henrich : enrichOne env n =
        { mint := n.mint, address := none, splTokenInfo := none, splMintInfo := none,
          metadataExternal := none, edition := emptyEditionInfo } := by
      simp only [enrichOne, h1, h2, h3, h4, h5]
      rfl
    obtain ⟨m, hm, hn⟩ : ∃ m, ms[i]? = some m ∧
        n = { mint := m.data.mint, metadataPDA := m.pubkey, metadataOnchain := m.data } := by
      simp only [deserializeMetadataOnchain, List.getElem?_map] at hget
      cases hmi : ms[i]? with
      | none => rw [hmi] at hget; simp at hget
      | some m =>
        rw [hmi] at hget
        simp only [Option.map_some', Option.some.injEq] at hget
        exact ⟨m, rfl, hget.symm⟩
    have hout : (turnMetadatasIntoNFTsT env ms).1[i]? = some n := by
      simp only [turnMetadatasIntoNFTsT, joinArraysOnKey, List.getElem?_map, hget,
        Option.map_some']
      rw [hfind, henrich]
      subst hn
      rfl
    subst hn
    exact ⟨hout, rfl, rfl, rfl, rfl, rfl, rfl, rfl, rfl, rfl⟩

/-- Witness for C1: a single base record whose every enrichment lookup
raises still comes back unchanged, and the mint order is preserved. -/
theorem claim1_merge_preserves_base_witness :
    (turnMetadatasIntoNFTsT envAllFail [md5]).1[0]? =
      some { mint := 5, metadataPDA := 9,
             metadataOnchain := ⟨8, 5, ⟨"n", "s", "u"⟩⟩ } ∧
    (turnMetadatasIntoNFTsT envAllFail [md5]).1.map INFT.mint = [5] := by
  have h := claim1_merge_preserves_base envAllFail [md5]
  refine ⟨(h.2 0 { mint := 5, metadataPDA := 9, metadataOnchain := ⟨8, 5, ⟨"n", "s", "u"⟩⟩ }
      (by decide) rfl rfl rfl rfl rfl rfl).1, ?_⟩
  rw [h.1]
  rfl
